import Mathlib

/-!
Verification of the `tortilla-python` container format implementation
(`pytortilla`): the writer (`pytortilla/create`), the local and remote
readers (`pytortilla/load`), the subset compiler (`pytortilla/compile`)
and the STAC data model (`pytortilla/datamodel`).

Bytes are modelled as natural numbers, byte strings as `List Nat`.
Fixed-width little-endian integer fields (`int.to_bytes(8, "little")` /
`int.from_bytes(b, "little")` in the source) are modelled by `natToLE` /
`leToNat`.  The footer codec (parquet + zstd via the external `pyarrow`
library) is modelled as an explicit invertible byte serialization
(`encodeFooter` / `decodeFooter`): the source treats it as an opaque
inverse pair, and only its length and invertibility are relevant here.
-/

set_option maxRecDepth 8000

namespace Tortilla

/-- `n.to_bytes(w, "little")`: `w` little-endian base-256 digits. -/
def natToLE : Nat → Nat → List Nat
  | 0, _ => []
  | w + 1, n => n % 256 :: natToLE w (n / 256)

/-- `int.from_bytes(bs, "little")` on a list of byte values. -/
def leToNat : List Nat → Nat
  | [] => 0
  | b :: bs => b + 256 * leToNat bs

theorem length_natToLE (w n : Nat) : (natToLE w n).length = w := by
  induction w generalizing n with
  | zero => rfl
  | succ w ih => simp [natToLE, ih]

theorem leToNat_natToLE (w n : Nat) (h : n < 256 ^ w) : leToNat (natToLE w n) = n := by
  induction w generalizing n with
  | zero => simp [natToLE, leToNat]; omega
  | succ w ih =>
      have hlt : n / 256 < 256 ^ w := by
        rw [Nat.div_lt_iff_lt_mul (by norm_num)]
        calc n < 256 ^ (w + 1) := h
          _ = 256 ^ w * 256 := by ring
      simp [natToLE, leToNat, ih _ hlt]
      omega

/-- Python `bytes` whitespace, as stripped by `bytes.strip()`:
space, tab, newline, carriage return, vertical tab, form feed.
NUL (`0x00`) is *not* whitespace. -/
def isPySpace (b : Nat) : Bool :=
  b == 32 || b == 9 || b == 10 || b == 13 || b == 11 || b == 12

/-- `bs.strip()`: remove leading and trailing ASCII whitespace. -/
def pyStrip (bs : List Nat) : List Nat :=
  ((bs.dropWhile isPySpace).reverse.dropWhile isPySpace).reverse

/-- `bs.ljust(24)`: right-pad with spaces (`0x20`) to 24 bytes. -/
def ljust24 (bs : List Nat) : List Nat :=
  bs ++ List.replicate (24 - bs.length) 32

theorem length_ljust24 (bs : List Nat) (h : bs.length ≤ 24) : (ljust24 bs).length = 24 := by
  simp [ljust24]; omega

/-! ### Footer codec

One row of the footer table: `tortilla:id`, `tortilla:offset`,
`tortilla:length`, plus arbitrary extra metadata columns (name/value
pairs).  The internal source path is dropped by the writer before
encoding and is not part of a row. -/

structure Row where
  id : String
  offset : Nat
  length : Nat
  extra : List (String × String)
deriving Repr, DecidableEq

/-- Prefix-free encoding of a natural number (unary digits, terminated). -/
def encodeNat (n : Nat) : List Nat :=
  List.replicate n 1 ++ [0]

def readNat : List Nat → Option (Nat × List Nat)
  | [] => none
  | 0 :: bs => some (0, bs)
  | (_ + 1) :: bs =>
      match readNat bs with
      | some (n, r) => some (n + 1, r)
      | none => none

theorem readNat_encode (n : Nat) (rest : List Nat) :
    readNat (encodeNat n ++ rest) = some (n, rest) := by
  induction n with
  | zero => rfl
  | succ n ih =>
      simp only [encodeNat, List.replicate_succ, List.cons_append, List.append_assoc,
        List.singleton_append, List.nil_append] at *
      simp [readNat, ih]

def encodeString (s : String) : List Nat :=
  encodeNat s.length ++ s.data.map Char.toNat

def readString (bs : List Nat) : Option (String × List Nat) :=
  match readNat bs with
  | none => none
  | some (n, bs₁) =>
      if n ≤ bs₁.length then
        some (String.mk ((bs₁.take n).map Char.ofNat), bs₁.drop n)
      else none

theorem readString_encode (s : String) (rest : List Nat) :
    readString (encodeString s ++ rest) = some (s, rest) := by
  obtain ⟨d⟩ := s
  have hlen : (d.map Char.toNat).length = String.length ⟨d⟩ := by
    rw [List.length_map]; rfl
  have hle : String.length ⟨d⟩ ≤ (d.map Char.toNat ++ rest).length := by
    rw [List.length_append, ← hlen]; omega
  simp only [encodeString, List.append_assoc, readString, readNat_encode, hle, if_true]
  rw [← hlen, List.take_left, List.drop_left]
  simp [List.map_map, Function.comp_def, Char.ofNat_toNat]

def encodePair (p : String × String) : List Nat :=
  encodeString p.1 ++ encodeString p.2

def readPair (bs : List Nat) : Option ((String × String) × List Nat) :=
  match readString bs with
  | none => none
  | some (a, bs₁) =>
      match readString bs₁ with
      | none => none
      | some (b, bs₂) => some ((a, b), bs₂)

theorem readPair_encode (p : String × String) (rest : List Nat) :
    readPair (encodePair p ++ rest) = some (p, rest) := by
  simp [encodePair, readPair, List.append_assoc, readString_encode]

def readPairs : Nat → List Nat → Option (List (String × String) × List Nat)
  | 0, bs => some ([], bs)
  | n + 1, bs =>
      match readPair bs with
      | none => none
      | some (p, bs₁) =>
          match readPairs n bs₁ with
          | none => none
          | some (ps, bs₂) => some (p :: ps, bs₂)

theorem readPairs_encode (ps : List (String × String)) (rest : List Nat) :
    readPairs ps.length ((ps.map encodePair).flatten ++ rest) = some (ps, rest) := by
  induction ps generalizing rest with
  | nil => rfl
  | cons p ps ih =>
      simp only [List.map_cons, List.flatten_cons, List.length_cons, List.append_assoc]
      simp [readPairs, readPair_encode, ih]

def encodeRow (r : Row) : List Nat :=
  encodeString r.id ++ encodeNat r.offset ++ encodeNat r.length ++
    encodeNat r.extra.length ++ (r.extra.map encodePair).flatten

def readRow (bs : List Nat) : Option (Row × List Nat) :=
  match readString bs with
  | none => none
  | some (id, bs₁) =>
      match readNat bs₁ with
      | none => none
      | some (off, bs₂) =>
          match readNat bs₂ with
          | none => none
          | some (len, bs₃) =>
              match readNat bs₃ with
              | none => none
              | some (k, bs₄) =>
                  match readPairs k bs₄ with
                  | none => none
                  | some (extra, bs₅) => some (⟨id, off, len, extra⟩, bs₅)

theorem readRow_encode (r : Row) (rest : List Nat) :
    readRow (encodeRow r ++ rest) = some (r, rest) := by
  simp [encodeRow, readRow, List.append_assoc, readString_encode, readNat_encode,
    readPairs_encode]

def readRows : Nat → List Nat → Option (List Row × List Nat)
  | 0, bs => some ([], bs)
  | n + 1, bs =>
      match readRow bs with
      | none => none
      | some (r, bs₁) =>
          match readRows n bs₁ with
          | none => none
          | some (rs, bs₂) => some (r :: rs, bs₂)

theorem readRows_encode (rows : List Row) (rest : List Nat) :
    readRows rows.length ((rows.map encodeRow).flatten ++ rest) = some (rows, rest) := by
  induction rows generalizing rest with
  | nil => rfl
  | cons r rows ih =>
      simp only [List.map_cons, List.flatten_cons, List.length_cons, List.append_assoc]
      simp [readRows, readRow_encode, ih]

/-- `encode_footer`: serialize the metadata table to bytes (models
`pq.write_table` with zstd level 22, dictionary encoding off). -/
def encodeFooter (rows : List Row) : List Nat :=
  encodeNat rows.length ++ (rows.map encodeRow).flatten

/-- `decode_footer`: inverse of `encodeFooter` (models `pq.read_table`);
fails on trailing garbage, as the parquet reader does. -/
def decodeFooter (bs : List Nat) : Option (List Row) :=
  match readNat bs with
  | none => none
  | some (n, bs₁) =>
      match readRows n bs₁ with
      | none => none
      | some (rows, bs₂) => if bs₂.isEmpty then some rows else none

theorem decodeFooter_encodeFooter (rows : List Row) :
    decodeFooter (encodeFooter rows) = some rows := by
  have h := readNat_encode rows.length ((rows.map encodeRow).flatten ++ [])
  simp only [List.append_nil] at h
  have h2 := readRows_encode rows ([] : List Nat)
  simp only [List.append_nil] at h2
  simp [decodeFooter, encodeFooter, h, h2]

/-! ### Header layout

`create_a_tortilla` writes, in order: magic `#y` (2 bytes), footer
offset (u64 LE), footer length (u64 LE), data format left-justified to
24 bytes with spaces, data partitions (u64 LE), 150 zero bytes. -/

def encodeHeader (fo fl : Nat) (fmt : List Nat) (dp : Nat) : List Nat :=
  [35, 121] ++ natToLE 8 fo ++ natToLE 8 fl ++ ljust24 fmt ++ natToLE 8 dp ++
    List.replicate 150 0

theorem length_encodeHeader (fo fl : Nat) (fmt : List Nat) (dp : Nat)
    (h : fmt.length ≤ 24) : (encodeHeader fo fl fmt dp).length = 200 := by
  simp [encodeHeader, length_natToLE, ljust24]
  omega

/-! ### Writer (`pytortilla/create/main.py`)

A `Sample` models one input item: its unique id, the bytes of its
source file (`internal:path`, whose `st_size` gives `tortilla:length`),
and the extra metadata columns exported by `Sample.export_metadata`. -/

structure Sample where
  id : String
  payload : List Nat
  extra : List (String × String)
deriving Repr, DecidableEq

/-- `tortilla:length` is the source file size. -/
def Sample.size (s : Sample) : Nat := s.payload.length

/-- Offset assignment of `create_a_tortilla`:
`metadata["tortilla:length"].shift(1, fill_value=0).cumsum() + 200`,
fused with the footer-row construction (which drops `internal:path`). -/
def rowsFrom (acc : Nat) : List Sample → List Row
  | [] => []
  | s :: ss => ⟨s.id, acc, s.size, s.extra⟩ :: rowsFrom (acc + s.size) ss

def footerRows (samples : List Sample) : List Row := rowsFrom 200 samples

/-- `bytes_counter = metadata.iloc[-1]["tortilla:length"] +
metadata.iloc[-1]["tortilla:offset"]`; `iloc[-1]` raises on an empty
frame, modelled by `none`. -/
def bytesCounter (samples : List Sample) : Option Nat :=
  match (footerRows samples).getLast? with
  | none => none
  | some r => some (r.offset + r.length)

/-- The `write_file` worker of `create_a_tortilla`.  Python:

```
with open(file, "rb") as g:
    while True:
        chunk = g.read(chunk_size_iter_bytes)
        if not chunk:
            break
        mm[offset : (offset + length)] = chunk
```

Every chunk is assigned to the whole slice `[offset, offset+length)`;
mmap slice assignment raises unless the chunk length equals the slice
length, and the worker's exception is never retrieved (`as_completed`
results are discarded), so on a size mismatch the region keeps its
previous contents.  `region` is the current contents of
`[offset, offset+length)`; the result is its final contents.  The loop
is written with structural fuel (one unit per iteration; each
iteration with `c > 0` consumes at least one payload byte, so
`payload.length` units always suffice). -/
def writeFileAux (c : Nat) : Nat → List Nat → Nat → List Nat → List Nat
  | _, [], _, region => region
  | 0, _ :: _, _, region => region
  | fuel + 1, p :: ps, length, region =>
      if c = 0 then region
      else if ((p :: ps).take c).length = length then
        writeFileAux c fuel ((p :: ps).drop c) length ((p :: ps).take c)
      else region

def writeFile (c : Nat) (payload : List Nat) (length : Nat) (region : List Nat) : List Nat :=
  writeFileAux c payload.length payload length region

/-- Bytes of one item's slot `[offset, offset+length)` after its worker
ran.  The output file is created with `truncate`, so the slot starts
zero-filled. -/
def writtenItem (c : Nat) (s : Sample) : List Nat :=
  writeFile c s.payload s.size (List.replicate s.size 0)

/-- The data region `[200, bytes_counter)` after all workers ran: the
workers write to disjoint pre-assigned slots. -/
def dataRegion (c : Nat) (samples : List Sample) : List Nat :=
  (samples.map (writtenItem c)).flatten

/-- `create_a_tortilla`: header, data region and footer of a single
tortilla file.  `none` models the exceptions of the build: `iloc[-1]`
on an empty group, `int.to_bytes(8, ...)` overflow, and the
`mm[18:42] = DF` slice assignment when the format string exceeds 24
bytes. -/
def createATortilla (samples : List Sample) (c : Nat) (fmt : List Nat) (dp : Nat) :
    Option (List Nat) :=
  match bytesCounter samples with
  | none => none
  | some bc =>
      let FOOTER := encodeFooter (footerRows samples)
      if bc < 2 ^ 64 ∧ FOOTER.length < 2 ^ 64 ∧ dp < 2 ^ 64 ∧ fmt.length ≤ 24 then
        some (encodeHeader bc FOOTER.length fmt dp ++ dataRegion c samples ++ FOOTER)
      else none

/-- `group_dataframe_by_size` loop (`pytortilla/create/utils.py`):
greedy packing by `tortilla:length`.  Note the `else` branch appends
`current_group` even when it is empty (possible only at the start). -/
def groupLoop (chunk : Nat) : List Sample → List Sample → Nat → List (List Sample)
  | [], cur, _ => if cur.isEmpty then [] else [cur]
  | s :: ss, cur, curSum =>
      if curSum + s.size ≤ chunk then
        groupLoop chunk ss (cur ++ [s]) (curSum + s.size)
      else
        cur :: groupLoop chunk ss [s] s.size

def group_dataframe_by_size (chunk : Nat) (samples : List Sample) : List (List Sample) :=
  groupLoop chunk samples [] 0

/-- The `for` loop of `create` over the groups: build each part,
propagating any exception. -/
def mapOptionList {α β : Type} (k : α → Option β) : List α → Option (List β)
  | [] => some []
  | a :: as =>
      match k a, mapOptionList k as with
      | some b, some bs => some (b :: bs)
      | _, _ => none

/-- `create`: partition the samples, then build one file per group; a
single group is written with `ndatapartitions = 1`, several groups
each with `ndatapartitions = len(metadata_groups)`. -/
def create (samples : List Sample) (chunk c : Nat) (fmt : List Nat) :
    Option (List (List Nat)) :=
  let groups := group_dataframe_by_size chunk samples
  if groups.length = 1 then
    (createATortilla (groups.headI) c fmt 1).map ([·])
  else
    mapOptionList (createATortilla · c fmt groups.length) groups

/-! ### Local reader (`pytortilla/load/load_local.py`) -/

/-- The metadata table returned by a reader: the decoded footer rows
plus the synthetic columns `internal:file_format` (the stripped header
format field) and `internal:mode`. -/
structure Table where
  rows : List Row
  fileFormat : List Nat
  mode : String
deriving Repr, DecidableEq

/-- `DF = static_bytes[18:42].strip()` of the local/remote readers. -/
def headerDataFormat (file : List Nat) : List Nat :=
  pyStrip (((file.take 50).drop 18).take 24)

/-- `file2metadata` (local): read the first 50 bytes, check the magic,
decode footer offset and length, slice and decode the footer.  `none`
models the `ValueError` on a bad magic and footer decode failures. -/
def file2metadata (file : List Nat) : Option Table :=
  let static := file.take 50
  if static.take 2 ≠ [35, 121] then none
  else
    let fo := leToNat ((static.drop 2).take 8)
    let fl := leToNat ((static.drop 10).take 8)
    match decodeFooter ((file.drop fo).take fl) with
    | none => none
    | some rows => some ⟨rows, headerDataFormat file, "local"⟩

/-! ### Slicing lemmas -/

theorem take_append_len {α : Type} (l₁ l₂ : List α) (n : Nat) (h : l₁.length = n) :
    (l₁ ++ l₂).take n = l₁ := by
  subst h; exact List.take_left l₁ l₂

theorem drop_append_len {α : Type} (l₁ l₂ : List α) (n : Nat) (h : l₁.length = n) :
    (l₁ ++ l₂).drop n = l₂ := by
  subst h; exact List.drop_left l₁ l₂

/-- Slices of the 50-byte static prefix agree with slices of the file. -/
theorem static_slice (file : List Nat) (a b : Nat) (hab : a + b ≤ 50) :
    ((file.take 50).drop a).take b = (file.drop a).take b := by
  rw [List.drop_take, List.take_take]
  congr 1
  omega

theorem static_take2 (file : List Nat) : (file.take 50).take 2 = file.take 2 := by
  rw [List.take_take]
  norm_num

/-- The header followed by anything, fully right-associated. -/
theorem encodeHeader_append (fo fl : Nat) (fmt : List Nat) (dp : Nat) (rest : List Nat) :
    encodeHeader fo fl fmt dp ++ rest =
      35 :: 121 :: (natToLE 8 fo ++ (natToLE 8 fl ++ (ljust24 fmt ++
        (natToLE 8 dp ++ (List.replicate 150 0 ++ rest))))) := by
  simp [encodeHeader]

theorem header_take2 (fo fl : Nat) (fmt : List Nat) (dp : Nat) (rest : List Nat) :
    (encodeHeader fo fl fmt dp ++ rest).take 2 = [35, 121] := by
  rw [encodeHeader_append]; rfl

theorem header_drop2 (fo fl : Nat) (fmt : List Nat) (dp : Nat) (rest : List Nat) :
    (encodeHeader fo fl fmt dp ++ rest).drop 2 =
      natToLE 8 fo ++ (natToLE 8 fl ++ (ljust24 fmt ++
        (natToLE 8 dp ++ (List.replicate 150 0 ++ rest)))) := by
  rw [encodeHeader_append]; rfl

theorem header_slice_fo (fo fl : Nat) (fmt : List Nat) (dp : Nat) (rest : List Nat) :
    ((encodeHeader fo fl fmt dp ++ rest).drop 2).take 8 = natToLE 8 fo := by
  rw [header_drop2]
  exact take_append_len _ _ _ (length_natToLE 8 fo)

theorem header_drop10 (fo fl : Nat) (fmt : List Nat) (dp : Nat) (rest : List Nat) :
    (encodeHeader fo fl fmt dp ++ rest).drop 10 =
      natToLE 8 fl ++ (ljust24 fmt ++ (natToLE 8 dp ++ (List.replicate 150 0 ++ rest))) := by
  have h : (10 : Nat) = 2 + 8 := rfl
  rw [h, ← List.drop_drop, header_drop2]
  exact drop_append_len _ _ _ (length_natToLE 8 fo)

theorem header_slice_fl (fo fl : Nat) (fmt : List Nat) (dp : Nat) (rest : List Nat) :
    ((encodeHeader fo fl fmt dp ++ rest).drop 10).take 8 = natToLE 8 fl := by
  rw [header_drop10]
  exact take_append_len _ _ _ (length_natToLE 8 fl)

theorem header_drop18 (fo fl : Nat) (fmt : List Nat) (dp : Nat) (rest : List Nat) :
    (encodeHeader fo fl fmt dp ++ rest).drop 18 =
      ljust24 fmt ++ (natToLE 8 dp ++ (List.replicate 150 0 ++ rest)) := by
  have h : (18 : Nat) = 10 + 8 := rfl
  rw [h, ← List.drop_drop, header_drop10]
  exact drop_append_len _ _ _ (length_natToLE 8 fl)

theorem header_slice_df (fo fl : Nat) (fmt : List Nat) (dp : Nat) (rest : List Nat)
    (hfmt : fmt.length ≤ 24) :
    ((encodeHeader fo fl fmt dp ++ rest).drop 18).take 24 = ljust24 fmt := by
  rw [header_drop18]
  exact take_append_len _ _ _ (length_ljust24 fmt hfmt)

theorem header_slice_dp (fo fl : Nat) (fmt : List Nat) (dp : Nat) (rest : List Nat)
    (hfmt : fmt.length ≤ 24) :
    ((encodeHeader fo fl fmt dp ++ rest).drop 42).take 8 = natToLE 8 dp := by
  have h : (42 : Nat) = 18 + 24 := rfl
  rw [h, ← List.drop_drop, header_drop18,
    drop_append_len _ _ _ (length_ljust24 fmt hfmt)]
  exact take_append_len _ _ _ (length_natToLE 8 dp)

/-! ### Writer lemmas -/

def sizeSum (samples : List Sample) : Nat := (samples.map Sample.size).sum

theorem writeFileAux_length (c : Nat) :
    ∀ (fuel : Nat) (p : List Nat) (len : Nat) (r : List Nat),
      r.length = len → (writeFileAux c fuel p len r).length = len := by
  intro fuel
  induction fuel with
  | zero =>
      intro p len r hr
      match p with
      | [] => simpa [writeFileAux] using hr
      | q :: qs => simpa [writeFileAux] using hr
  | succ fuel ih =>
      intro p len r hr
      match p with
      | [] => simpa [writeFileAux] using hr
      | q :: qs =>
          rw [writeFileAux]
          split
          · exact hr
          · split
            · next hc hlen => exact ih _ _ _ hlen
            · exact hr

theorem writtenItem_length (c : Nat) (s : Sample) : (writtenItem c s).length = s.size :=
  writeFileAux_length c s.payload.length s.payload s.size _ (by simp [Sample.size])

/-- When the chunk size covers the whole file, `write_file` copies the
payload in one chunk. -/
theorem writeFile_complete (c : Nat) (p : List Nat) (hc : p.length ≤ c) :
    writeFile c p p.length (List.replicate p.length 0) = p := by
  match p with
  | [] => simp [writeFile, writeFileAux]
  | q :: qs =>
      have hc0 : c ≠ 0 := by
        intro h; subst h; simp at hc
      show writeFileAux c (qs.length + 1) (q :: qs) (q :: qs).length
        (List.replicate (q :: qs).length 0) = q :: qs
      rw [writeFileAux, if_neg hc0,
        if_pos (by rw [List.take_of_length_le hc]),
        List.take_of_length_le hc, List.drop_eq_nil_of_le hc]
      simp [writeFileAux]

theorem dataRegion_length (c : Nat) (samples : List Sample) :
    (dataRegion c samples).length = sizeSum samples := by
  induction samples with
  | nil => rfl
  | cons s ss ih =>
      simp [dataRegion, sizeSum, writtenItem_length] at *
      simp [ih]

theorem dataRegion_drop (c : Nat) :
    ∀ (i : Nat) (samples : List Sample),
      (dataRegion c samples).drop (sizeSum (samples.take i)) = dataRegion c (samples.drop i) := by
  intro i
  induction i with
  | zero => intro samples; simp [sizeSum]
  | succ i ih =>
      intro samples
      match samples with
      | [] => simp [sizeSum]
      | s :: ss =>
          have h1 : sizeSum ((s :: ss).take (i + 1)) = s.size + sizeSum (ss.take i) := by
            simp [sizeSum]
          have h2 : dataRegion c (s :: ss) = writtenItem c s ++ dataRegion c ss := by
            simp [dataRegion]
          rw [h1, h2, ← List.drop_drop, drop_append_len _ _ _ (writtenItem_length c s),
            List.drop_succ_cons]
          exact ih ss

theorem sizeSum_take_le (samples : List Sample) (i : Nat) :
    sizeSum (samples.take i) ≤ sizeSum samples := by
  have h : sizeSum samples = sizeSum (samples.take i) + sizeSum (samples.drop i) := by
    conv_lhs => rw [← List.take_append_drop i samples]
    simp [sizeSum]
  omega

theorem rowsFrom_length (acc : Nat) (ss : List Sample) :
    (rowsFrom acc ss).length = ss.length := by
  induction ss generalizing acc with
  | nil => rfl
  | cons s ss ih => simp [rowsFrom, ih]

theorem rowsFrom_get (ss : List Sample) :
    ∀ (acc : Nat) (i : Nat) (hi : i < ss.length),
      (rowsFrom acc ss).get ⟨i, by rw [rowsFrom_length]; exact hi⟩ =
        ⟨ss[i].id, acc + sizeSum (ss.take i), ss[i].size, ss[i].extra⟩ := by
  induction ss with
  | nil => intro acc i hi; simp at hi
  | cons s ss ih =>
      intro acc i hi
      match i with
      | 0 => simp [rowsFrom, sizeSum, List.get]
      | j + 1 =>
          have hj : j < ss.length := by simpa using hi
          have hrec := ih (acc + s.size) j hj
          simp only [List.get_eq_getElem, rowsFrom, List.getElem_cons_succ] at hrec ⊢
          rw [hrec]
          have harith : acc + s.size + sizeSum (ss.take j) =
              acc + sizeSum ((s :: ss).take (j + 1)) := by
            simp only [sizeSum, List.take_succ_cons, List.map_cons, List.sum_cons]
            omega
          simp [harith]

theorem getLast?_rowsFrom (ss : List Sample) :
    ∀ acc : Nat, ss ≠ [] →
      ((rowsFrom acc ss).getLast?).map (fun r => r.offset + r.length) =
        some (acc + sizeSum ss) := by
  induction ss with
  | nil => intro acc h; exact absurd rfl h
  | cons s ss ih =>
      intro acc _
      match ss with
      | [] => simp [rowsFrom, sizeSum]
      | t :: ts =>
          have h2 := ih (acc + s.size) (by simp)
          simp only [rowsFrom, List.getLast?_cons_cons] at h2 ⊢
          rw [h2]
          have h4 : acc + s.size + sizeSum (t :: ts) = acc + sizeSum (s :: t :: ts) := by
            simp only [sizeSum, List.map_cons, List.sum_cons]
            omega
          rw [h4]

theorem bytesCounter_eq (samples : List Sample) (h : samples ≠ []) :
    bytesCounter samples = some (200 + sizeSum samples) := by
  have := getLast?_rowsFrom samples 200 h
  unfold bytesCounter footerRows
  match hm : (rowsFrom 200 samples).getLast? with
  | none => rw [hm] at this; simp at this
  | some r =>
      rw [hm] at this
      simp at this
      simp [this]

theorem sizeSum_take_succ (ss : List Sample) (i : Nat) (hi : i < ss.length) :
    sizeSum (ss.take (i + 1)) = sizeSum (ss.take i) + ss[i].size := by
  have h : ss.take (i + 1) = ss.take i ++ [ss[i]] := by
    rw [List.take_succ, List.getElem?_eq_getElem hi]
    rfl
  rw [h]
  simp only [sizeSum, List.map_append, List.sum_append, List.map_cons, List.map_nil,
    List.sum_cons, List.sum_nil]
  omega

/-- Structure of a successfully built tortilla file. -/
theorem createATortilla_eq (samples : List Sample) (c : Nat) (fmt : List Nat) (dp : Nat)
    (file : List Nat) (h : createATortilla samples c fmt dp = some file) :
    samples ≠ [] ∧ 200 + sizeSum samples < 2 ^ 64 ∧
      (encodeFooter (footerRows samples)).length < 2 ^ 64 ∧ dp < 2 ^ 64 ∧
      fmt.length ≤ 24 ∧
      file = encodeHeader (200 + sizeSum samples) (encodeFooter (footerRows samples)).length
        fmt dp ++ dataRegion c samples ++ encodeFooter (footerRows samples) := by
  by_cases hs : samples = []
  · subst hs
    simp [createATortilla, bytesCounter, footerRows, rowsFrom] at h
  · rw [createATortilla, bytesCounter_eq samples hs] at h
    dsimp only at h
    split_ifs at h with hcond
    · obtain ⟨h1, h2, h3, h4⟩ := hcond
      simp only [Option.some.injEq] at h
      exact ⟨hs, h1, h2, h3, h4, h.symm⟩

/-- The local reader decodes a written file back to its footer rows. -/
theorem file2metadata_createATortilla (samples : List Sample) (c : Nat) (fmt : List Nat)
    (dp : Nat) (file : List Nat) (hcreate : createATortilla samples c fmt dp = some file) :
    file2metadata file = some ⟨footerRows samples, pyStrip (ljust24 fmt), "local"⟩ := by
  obtain ⟨hs, hbc, hfl, hdp, hfmt, hfile⟩ := createATortilla_eq samples c fmt dp file hcreate
  set bc := 200 + sizeSum samples with hbc_def
  set F := encodeFooter (footerRows samples) with hF_def
  have hfile' : file = encodeHeader bc F.length fmt dp ++ (dataRegion c samples ++ F) := by
    rw [hfile, List.append_assoc]
  have hmagic : (file.take 50).take 2 = [35, 121] := by
    rw [static_take2, hfile', header_take2]
  have hfo : leToNat (((file.take 50).drop 2).take 8) = bc := by
    rw [static_slice _ 2 8 (by norm_num), hfile', header_slice_fo,
      leToNat_natToLE _ _ hbc]
  have hflv : leToNat (((file.take 50).drop 10).take 8) = F.length := by
    rw [static_slice _ 10 8 (by norm_num), hfile', header_slice_fl,
      leToNat_natToLE _ _ hfl]
  have hdf : headerDataFormat file = pyStrip (ljust24 fmt) := by
    rw [headerDataFormat, static_slice _ 18 24 (by norm_num), hfile',
      header_slice_df _ _ _ _ _ hfmt]
  have hslice : (file.drop bc).take F.length = F := by
    rw [hfile]
    rw [drop_append_len _ _ _ (by
      rw [List.length_append, length_encodeHeader _ _ _ _ hfmt, dataRegion_length])]
    exact List.take_length _
  rw [file2metadata]
  simp only [hmagic, hfo, hflv, hslice, hdf]
  rw [hF_def, decodeFooter_encodeFooter]
  simp

/-- Claim C1 — amended.  For every non-empty sample sequence and every
write chunk size `c` that is at least each item's length, reading back
the written tortilla returns exactly the written table (ids, offsets,
lengths, extra columns), and each item's slot in the data region holds
its source bytes.  (As written the claim also covered chunk sizes
smaller than an item; `claim1_roundtrip_counterexample` shows that
fails: the worker's repeated full-slice assignment raises on the first
short chunk, the exception is discarded, and the slot stays
zero-filled.) -/
theorem claim1_roundtrip (samples : List Sample) (c : Nat) (fmt : List Nat) (dp : Nat)
    (file : List Nat) (i : Nat) (hi : i < samples.length)
    (hcreate : createATortilla samples c fmt dp = some file)
    (hchunk : ∀ s ∈ samples, s.payload.length ≤ c) :
    file2metadata file = some ⟨footerRows samples, pyStrip (ljust24 fmt), "local"⟩ ∧
      (file.drop (200 + sizeSum (samples.take i))).take (samples.get ⟨i, hi⟩).size =
        (samples.get ⟨i, hi⟩).payload := by
  obtain ⟨hs, hbc, hfl, hdp, hfmt, hfile⟩ := createATortilla_eq samples c fmt dp file hcreate
  refine ⟨file2metadata_createATortilla samples c fmt dp file hcreate, ?_⟩
  set F := encodeFooter (footerRows samples) with hF_def
  have hfile' : file =
      encodeHeader (200 + sizeSum samples) F.length fmt dp ++ (dataRegion c samples ++ F) := by
    rw [hfile, List.append_assoc]
  have hdropfile : file.drop (200 + sizeSum (samples.take i)) =
      dataRegion c (samples.drop i) ++ F := by
    rw [← List.drop_drop, hfile',
      drop_append_len _ _ 200 (length_encodeHeader _ _ _ _ hfmt),
      List.drop_append_of_le_length (by
        rw [dataRegion_length]; exact sizeSum_take_le samples i),
      dataRegion_drop]
  rw [hdropfile, List.drop_eq_getElem_cons hi]
  have hitem : dataRegion c (samples[i] :: samples.drop (i + 1)) =
      writtenItem c samples[i] ++ dataRegion c (samples.drop (i + 1)) := by
    simp only [dataRegion, List.map_cons, List.flatten_cons]
  simp only [List.get_eq_getElem]
  rw [hitem, List.append_assoc,
    take_append_len _ _ _ (writtenItem_length c samples[i])]
  have hmem : samples[i] ∈ samples := List.getElem_mem hi
  have hc := hchunk _ hmem
  simpa [writtenItem, Sample.size] using writeFile_complete c samples[i].payload hc

/-- Witness for `claim1_roundtrip` at a concrete one-item input. -/
theorem claim1_roundtrip_witness :
    file2metadata ((createATortilla [⟨"a", [7, 7], []⟩] 2 [88] 1).getD []) =
        some ⟨footerRows [⟨"a", [7, 7], []⟩], pyStrip (ljust24 [88]), "local"⟩ ∧
      (((createATortilla [⟨"a", [7, 7], []⟩] 2 [88] 1).getD []).drop
          (200 + sizeSum (([⟨"a", [7, 7], []⟩] : List Sample).take 0))).take
          (([⟨"a", [7, 7], []⟩] : List Sample).get ⟨0, by decide⟩).size =
        (([⟨"a", [7, 7], []⟩] : List Sample).get ⟨0, by decide⟩).payload :=
  claim1_roundtrip [⟨"a", [7, 7], []⟩] 2 [88] 1 _ 0 (by decide) (by decide) (by decide)

/-- Claim C1 counterexample: with a chunk size (1) smaller than the
item's length (2), the payload does not round-trip — the data region
keeps its zero fill instead of the source bytes `[7, 7]`. -/
theorem claim1_counterexample :
    (createATortilla [⟨"a", [7, 7], []⟩] 1 [88] 1).map (fun f => (f.drop 200).take 2) ≠
      some [7, 7] := by
  decide

/-- Claim C2 — confirmed.  In every tortilla built by
`create_a_tortilla`, the first footer row's `tortilla:offset` is 200,
each later row's offset is the previous row's offset plus its length,
and the header's `footer_offset` field equals 200 plus the sum of all
item lengths. -/
theorem claim2_offsets_contiguous (samples : List Sample) (c : Nat) (fmt : List Nat)
    (dp : Nat) (file : List Nat) (i : Nat)
    (hcreate : createATortilla samples c fmt dp = some file)
    (hi : i + 1 < (footerRows samples).length) :
    ((footerRows samples).head?).map Row.offset = some 200 ∧
      ((footerRows samples).get ⟨i + 1, hi⟩).offset =
        ((footerRows samples).get ⟨i, by omega⟩).offset +
          ((footerRows samples).get ⟨i, by omega⟩).length ∧
      leToNat ((file.drop 2).take 8) = 200 + sizeSum samples := by
  obtain ⟨hs, hbc, hfl, hdp, hfmt, hfile⟩ := createATortilla_eq samples c fmt dp file hcreate
  have hlen : (footerRows samples).length = samples.length := rowsFrom_length 200 samples
  have hi1 : i + 1 < samples.length := by omega
  have hi0 : i < samples.length := by omega
  refine ⟨?_, ?_, ?_⟩
  · match samples, hs with
    | s :: ss, _ => simp [footerRows, rowsFrom]
  · have h1 := rowsFrom_get samples 200 (i + 1) hi1
    have h0 := rowsFrom_get samples 200 i hi0
    unfold footerRows
    rw [h1, h0]
    simp only
    rw [sizeSum_take_succ samples i hi0]
    omega
  · have hfile' : file = encodeHeader (200 + sizeSum samples)
        (encodeFooter (footerRows samples)).length fmt dp ++
        (dataRegion c samples ++ encodeFooter (footerRows samples)) := by
      rw [hfile, List.append_assoc]
    rw [hfile', header_slice_fo, leToNat_natToLE _ _ hbc]

/-- Witness for `claim2_offsets_contiguous` on a concrete two-item build. -/
theorem claim2_offsets_witness :
    ((footerRows [⟨"a", [7], []⟩, ⟨"b", [8, 9], []⟩]).head?).map Row.offset = some 200 ∧
      ((footerRows [⟨"a", [7], []⟩, ⟨"b", [8, 9], []⟩]).get ⟨1, by decide⟩).offset =
        ((footerRows [⟨"a", [7], []⟩, ⟨"b", [8, 9], []⟩]).get ⟨0, by decide⟩).offset +
          ((footerRows [⟨"a", [7], []⟩, ⟨"b", [8, 9], []⟩]).get ⟨0, by decide⟩).length ∧
      leToNat ((((createATortilla [⟨"a", [7], []⟩, ⟨"b", [8, 9], []⟩] 4 [88] 1).getD
        []).drop 2).take 8) = 200 + sizeSum [⟨"a", [7], []⟩, ⟨"b", [8, 9], []⟩] :=
  claim2_offsets_contiguous [⟨"a", [7], []⟩, ⟨"b", [8, 9], []⟩] 4 [88] 1 _ 0
    (by decide) (by decide)

/-! ### Partitioning (claim C3) -/

theorem groupLoop_flatten (chunk : Nat) :
    ∀ (rows cur : List Sample) (curSum : Nat),
      (groupLoop chunk rows cur curSum).flatten = cur ++ rows := by
  intro rows
  induction rows with
  | nil =>
      intro cur curSum
      match cur with
      | [] => simp [groupLoop]
      | x :: xs => simp [groupLoop]
  | cons s ss ih =>
      intro cur curSum
      rw [groupLoop]
      split
      · rw [ih]
        simp
      · simp only [List.flatten_cons, ih]
        simp

theorem groupLoop_budget (chunk : Nat) :
    ∀ (rows cur : List Sample) (curSum : Nat),
      sizeSum cur = curSum →
      (curSum ≤ chunk ∨ (cur.length = 1 ∧ chunk < curSum)) →
      ∀ g ∈ groupLoop chunk rows cur curSum,
        sizeSum g ≤ chunk ∨ (g.length = 1 ∧ chunk < sizeSum g) := by
  intro rows
  induction rows with
  | nil =>
      intro cur curSum hsum hinv g hg
      rw [groupLoop] at hg
      split at hg
      · simp at hg
      · simp at hg
        subst hg
        rw [hsum]
        exact hinv
  | cons s ss ih =>
      intro cur curSum hsum hinv g hg
      rw [groupLoop] at hg
      split at hg
      · next hle =>
          refine ih (cur ++ [s]) (curSum + s.size) ?_ (Or.inl hle) g hg
          simp only [sizeSum, List.map_append, List.sum_append, List.map_cons,
            List.map_nil, List.sum_cons, List.sum_nil]
          simp only [sizeSum] at hsum
          omega
      · simp only [List.mem_cons] at hg
        rcases hg with rfl | hg
        · rw [hsum]; exact hinv
        · refine ih [s] s.size ?_ ?_ g hg
          · simp [sizeSum]
          · by_cases hs : s.size ≤ chunk
            · exact Or.inl hs
            · exact Or.inr ⟨rfl, by omega⟩

theorem groupLoop_nonempty (chunk : Nat) :
    ∀ (rows cur : List Sample) (curSum : Nat), cur ≠ [] →
      ∀ g ∈ groupLoop chunk rows cur curSum, g ≠ [] := by
  intro rows
  induction rows with
  | nil =>
      intro cur curSum hcur g hg
      rw [groupLoop] at hg
      split at hg
      · simp at hg
      · simp at hg
        subst hg
        exact hcur
  | cons s ss ih =>
      intro cur curSum hcur g hg
      rw [groupLoop] at hg
      split at hg
      · exact ih (cur ++ [s]) _ (by simp) g hg
      · simp only [List.mem_cons] at hg
        rcases hg with rfl | hg
        · exact hcur
        · exact ih [s] _ (by simp) g hg

theorem groupLoop_tail_nonempty (chunk : Nat) :
    ∀ (rows cur : List Sample) (curSum : Nat),
      ∀ g ∈ (groupLoop chunk rows cur curSum).drop 1, g ≠ [] := by
  intro rows
  induction rows with
  | nil =>
      intro cur curSum g hg
      rw [groupLoop] at hg
      split at hg
      · simp at hg
      · simp at hg
  | cons s ss ih =>
      intro cur curSum g hg
      rw [groupLoop] at hg
      split at hg
      · exact ih (cur ++ [s]) _ g hg
      · rw [List.drop_one, List.tail_cons] at hg
        exact groupLoop_nonempty chunk ss [s] s.size (by simp) g hg

theorem mapOptionList_mem {α β : Type} (k : α → Option β) :
    ∀ (l : List α) (parts : List β), mapOptionList k l = some parts →
      ∀ f ∈ parts, ∃ g ∈ l, k g = some f := by
  intro l
  induction l with
  | nil =>
      intro parts h f hf
      simp [mapOptionList] at h
      subst h
      simp at hf
  | cons a as ih =>
      intro parts h f hf
      rw [mapOptionList] at h
      match hk : k a, hm : mapOptionList k as with
      | some b, some bs =>
          rw [hk, hm] at h
          simp at h
          subst h
          simp only [List.mem_cons] at hf
          rcases hf with rfl | hf
          · exact ⟨a, by simp, hk⟩
          · obtain ⟨g, hg, hkg⟩ := ih bs hm f hf
            exact ⟨g, by simp [hg], hkg⟩
      | some _, none => rw [hk, hm] at h; simp at h
      | none, _ => rw [hk] at h; simp at h

/-- Claim C3 — amended.  The greedy partitioning preserves input order
and concatenates back to the input; every group's total length is at
most the budget unless it is a single oversized item; every group
*except possibly the first* is non-empty (when the first item exceeds
the budget, an empty first group is emitted — see
`claim3_grouping_counterexample`); and when the build of several parts
succeeds, every part's header records `data_partitions` equal to the
number of groups. -/
theorem claim3_grouping (samples : List Sample) (chunk c : Nat) (fmt : List Nat)
    (parts : List (List Nat)) (g g' : List Sample) (f : List Nat)
    (hg : g ∈ group_dataframe_by_size chunk samples)
    (hg' : g' ∈ (group_dataframe_by_size chunk samples).drop 1)
    (hparts : create samples chunk c fmt = some parts)
    (hG : 1 < (group_dataframe_by_size chunk samples).length)
    (hf : f ∈ parts) :
    (group_dataframe_by_size chunk samples).flatten = samples ∧
      (sizeSum g ≤ chunk ∨ (g.length = 1 ∧ chunk < sizeSum g)) ∧
      g' ≠ [] ∧
      leToNat ((f.drop 42).take 8) = (group_dataframe_by_size chunk samples).length := by
  refine ⟨by simpa using groupLoop_flatten chunk samples [] 0, ?_, ?_, ?_⟩
  · exact groupLoop_budget chunk samples [] 0 rfl (Or.inl (by omega)) g hg
  · exact groupLoop_tail_nonempty chunk samples [] 0 g' hg'
  · rw [create] at hparts
    rw [if_neg (by omega)] at hparts
    obtain ⟨grp, hgrp, hcr⟩ := mapOptionList_mem _ _ _ hparts f hf
    obtain ⟨hs, hbc, hflen, hdp, hfmt, hfile⟩ :=
      createATortilla_eq grp c fmt (group_dataframe_by_size chunk samples).length f hcr
    have hfile' : f = encodeHeader (200 + sizeSum grp)
        (encodeFooter (footerRows grp)).length fmt
        (group_dataframe_by_size chunk samples).length ++
        (dataRegion c grp ++ encodeFooter (footerRows grp)) := by
      rw [hfile, List.append_assoc]
    rw [hfile', header_slice_dp _ _ _ _ _ hfmt, leToNat_natToLE _ _ hdp]

/-- Witness for `claim3_grouping`: two one-item groups under a 2-byte
budget, built into two parts. -/
theorem claim3_grouping_witness :
    (group_dataframe_by_size 2 [⟨"a", [7], []⟩, ⟨"b", [8, 9], []⟩]).flatten =
        [⟨"a", [7], []⟩, ⟨"b", [8, 9], []⟩] ∧
      (sizeSum [⟨"a", [7], []⟩] ≤ 2 ∨
        (([⟨"a", [7], []⟩] : List Sample).length = 1 ∧ 2 < sizeSum [⟨"a", [7], []⟩])) ∧
      ([⟨"b", [8, 9], []⟩] : List Sample) ≠ [] ∧
      leToNat (((((create [⟨"a", [7], []⟩, ⟨"b", [8, 9], []⟩] 2 4 [88]).getD []).getD 0
        []).drop 42).take 8) =
        (group_dataframe_by_size 2 [⟨"a", [7], []⟩, ⟨"b", [8, 9], []⟩]).length :=
  claim3_grouping [⟨"a", [7], []⟩, ⟨"b", [8, 9], []⟩] 2 4 [88]
    ((create [⟨"a", [7], []⟩, ⟨"b", [8, 9], []⟩] 2 4 [88]).getD [])
    [⟨"a", [7], []⟩] [⟨"b", [8, 9], []⟩]
    (((create [⟨"a", [7], []⟩, ⟨"b", [8, 9], []⟩] 2 4 [88]).getD []).getD 0 [])
    (by decide) (by decide) (by decide) (by decide) (by decide)

/-- Claim C3 counterexample: an oversized *first* item makes the loop
flush the still-empty `current_group`, so the first emitted group is
empty, contradicting "each non-empty". -/
theorem claim3_grouping_counterexample :
    (group_dataframe_by_size 10 [⟨"a", List.replicate 20 0, []⟩]).head? = some [] := by
  decide

/-! ### Range coalescing (`pytortilla/compile/utils.py`, claim C4) -/

/-- The merging loop of `build_simplified_range_header`: `(cs, ce)` is
the current open range; a row is merged exactly when its offset equals
the current end. -/
def simplifyLoop : List (Nat × Nat) → Nat → Nat → List (Nat × Nat)
  | [], cs, ce => [(cs, ce)]
  | (o, l) :: rest, cs, ce =>
      if o = ce then simplifyLoop rest cs (o + l)
      else (cs, ce) :: simplifyLoop rest o (o + l)

/-- The simplified half-open ranges; `df.iloc[0]` raises on an empty
frame, modelled by `none`. -/
def simplifiedRanges : List (Nat × Nat) → Option (List (Nat × Nat))
  | [] => none
  | (o, l) :: rest => some (simplifyLoop rest o (o + l))

/-- `",".join(f"bytes=STARTEND" ...)` with inclusive end `end-1`. -/
def rangeValue (rs : List (Nat × Nat)) : String :=
  String.intercalate ","
    (rs.map (fun p => "bytes=" ++ toString p.1 ++ "-" ++ toString (p.2 - 1)))

def build_simplified_range_header (rows : List (Nat × Nat)) : Option String :=
  (simplifiedRanges rows).map rangeValue

/-- Number of adjacency breaks, entering with previous end `e`. -/
def gapsFrom : Nat → List (Nat × Nat) → Nat
  | _, [] => 0
  | e, (o, l) :: rest => (if o = e then 0 else 1) + gapsFrom (o + l) rest

/-- Number of maximal gaps between consecutive rows: positions `i ≥ 1`
with `offset[i] ≠ offset[i-1] + length[i-1]`. -/
def countGaps : List (Nat × Nat) → Nat
  | [] => 0
  | (o, l) :: rest => gapsFrom (o + l) rest

theorem simplifyLoop_length :
    ∀ (rest : List (Nat × Nat)) (cs ce : Nat),
      (simplifyLoop rest cs ce).length = 1 + gapsFrom ce rest := by
  intro rest
  induction rest with
  | nil => intro cs ce; simp [simplifyLoop, gapsFrom]
  | cons r rest ih =>
      intro cs ce
      obtain ⟨o, l⟩ := r
      rw [simplifyLoop, gapsFrom]
      split
      · next ho => simp [ih, ho]
      · next ho => simp [ih, ho]; omega

/-- Claim C4 — confirmed.  The loop merges a row exactly when its
offset equals the current range's end, so the number of emitted ranges
is the number of maximal gaps plus one; and the three rows
`(0,100), (100,100), (300,50)` yield exactly the header value
`bytes=0-199,bytes=300-349`. -/
theorem claim4_range_coalescing (rows : List (Nat × Nat)) (rs : List (Nat × Nat))
    (h : simplifiedRanges rows = some rs) :
    rs.length = 1 + countGaps rows ∧
      build_simplified_range_header [(0, 100), (100, 100), (300, 50)] =
        some "bytes=0-199,bytes=300-349" := by
  constructor
  · match rows, h with
    | (o, l) :: rest, h =>
        rw [simplifiedRanges] at h
        simp only [Option.some.injEq] at h
        subst h
        rw [simplifyLoop_length, countGaps]
  · decide

/-- Witness for `claim4_range_coalescing` on the three concrete rows. -/
theorem claim4_range_coalescing_witness :
    ((simplifiedRanges [(0, 100), (100, 100), (300, 50)]).getD []).length =
        1 + countGaps [(0, 100), (100, 100), (300, 50)] ∧
      build_simplified_range_header [(0, 100), (100, 100), (300, 50)] =
        some "bytes=0-199,bytes=300-349" :=
  claim4_range_coalescing [(0, 100), (100, 100), (300, 50)]
    ((simplifiedRanges [(0, 100), (100, 100), (300, 50)]).getD []) (by decide)

/-! ### Online compile resume policy (`pytortilla/compile/main.py`, claim C5) -/

inductive OnlineAction where
  | noop
  | writeHeader
  | resumeNoHeader (start : Nat)
deriving Repr, DecidableEq

/-- Lines 288-308 of `compile_online`: `start = 200`, replaced by the
file size when the output exists; a `start` equal to
`checksum = data_end + footer_length` is a no-op; the 200-byte header
is written exactly when `start == 200`; otherwise streaming appends at
the current size with no header write. -/
def resumePolicy (outputExists : Bool) (size checksum : Nat) : OnlineAction :=
  let start := if outputExists then size else 200
  if start = checksum then OnlineAction.noop
  else if start = 200 then OnlineAction.writeHeader
  else OnlineAction.resumeNoHeader start

/-- Claim C5 — amended.  A pre-existing output whose size equals
`data_end + footer_length` is a no-op.  The header is (re)written
exactly when the download starts at 200: when the output does not
exist, and also when it exists with size exactly 200 (a duplicate
header is then appended).  Any other existing size — larger *or
smaller* than 200 — resumes streaming from the current size without
writing a header. -/
theorem claim5_resume_policy (size ck : Nat) (hneq : size ≠ ck) (h200 : size ≠ 200)
    (hck : 200 ≠ ck) :
    resumePolicy true ck ck = OnlineAction.noop ∧
      resumePolicy true 200 ck = OnlineAction.writeHeader ∧
      resumePolicy true size ck = OnlineAction.resumeNoHeader size ∧
      resumePolicy false size ck = OnlineAction.writeHeader := by
  refine ⟨by simp [resumePolicy], ?_, ?_, ?_⟩
  · simp [resumePolicy, hck]
  · simp [resumePolicy, hneq, h200]
  · simp [resumePolicy, hck]

/-- Witness for `claim5_resume_policy` at size 100, checksum 5000. -/
theorem claim5_resume_policy_witness :
    resumePolicy true 5000 5000 = OnlineAction.noop ∧
      resumePolicy true 200 5000 = OnlineAction.writeHeader ∧
      resumePolicy true 100 5000 = OnlineAction.resumeNoHeader 100 ∧
      resumePolicy false 100 5000 = OnlineAction.writeHeader :=
  claim5_resume_policy 100 5000 (by decide) (by decide) (by decide)

/-- Claim C5 counterexample: an existing 100-byte output (size < 200)
does *not* get the header written first, and an existing 200-byte
output (size ≥ 200) *does* get the header rewritten — both contrary to
the claimed policy. -/
theorem claim5_resume_policy_counterexample :
    resumePolicy true 100 5000 ≠ OnlineAction.writeHeader ∧
      resumePolicy true 200 5000 = OnlineAction.writeHeader := by
  decide

/-! ### Remote reader (`pytortilla/load/load_remote.py`, claims C6, C8)

An HTTP `Range: bytes=a-b` request against a server returns the bytes
at positions `a..b` *inclusive*, clamped to the end of the resource. -/

def httpRange (content : List Nat) (a b : Nat) : List Nat :=
  (content.drop a).take (b + 1 - a)

/-- A remote read: the resulting table (`none` models a raised
exception) and the `(first, last)` byte ranges of the GET requests
issued, in order. -/
structure RemoteRead where
  table : Option Table
  requests : List (Nat × Nat)
deriving Repr, DecidableEq

/-- `file2metadata` (remote): `Range: bytes=0-50` for the header
prefix, then `Range: bytes=<fo>-<fo+fl-1>` for the footer. -/
def remote_file2metadata (content : List Nat) : RemoteRead :=
  let static := httpRange content 0 50
  if static.take 2 ≠ [35, 121] then ⟨none, [(0, 50)]⟩
  else
    let fo := leToNat ((static.drop 2).take 8)
    let fl := leToNat ((static.drop 10).take 8)
    let req := (fo, fo + fl - 1)
    ⟨(decodeFooter (httpRange content req.1 req.2)).map
        (fun rows => ⟨rows, pyStrip ((static.drop 18).take 24), "online"⟩),
      [(0, 50), req]⟩

/-- One iteration of `files2metadata` (remote): identical to the
single read except that the footer request is
`Range: bytes=<fo>-<fo+fl>` — one byte past the footer. -/
def remote_files2metadata_one (content : List Nat) : RemoteRead :=
  let static := httpRange content 0 50
  if static.take 2 ≠ [35, 121] then ⟨none, [(0, 50)]⟩
  else
    let fo := leToNat ((static.drop 2).take 8)
    let fl := leToNat ((static.drop 10).take 8)
    let req := (fo, fo + fl)
    ⟨(decodeFooter (httpRange content req.1 req.2)).map
        (fun rows => ⟨rows, pyStrip ((static.drop 18).take 24), "online"⟩),
      [(0, 50), req]⟩

/-- `files2metadata` (remote): read each URL in turn. -/
def remote_files2metadata (contents : List (List Nat)) : List RemoteRead :=
  contents.map remote_files2metadata_one

/-- `lazyfile2metadata`: nested read at absolute `offset`; requests
`Range: bytes=<offset>-<offset+50>` for the child header prefix, adds
`offset` to the decoded child footer offset, and rewrites every
returned `tortilla:offset` by adding `offset`. -/
def lazyfile2metadata (offset : Nat) (content : List Nat) : RemoteRead :=
  let static := httpRange content offset (offset + 50)
  if static.take 2 ≠ [35, 121] then ⟨none, [(offset, offset + 50)]⟩
  else
    let fo := leToNat ((static.drop 2).take 8) + offset
    let fl := leToNat ((static.drop 10).take 8)
    let req := (fo, fo + fl - 1)
    ⟨(decodeFooter (httpRange content req.1 req.2)).map
        (fun rows =>
          ⟨rows.map (fun r => { r with offset := r.offset + offset }),
            pyStrip ((static.drop 18).take 24), "online"⟩),
      [(offset, offset + 50), req]⟩

theorem static51_slice (file : List Nat) (a b : Nat) (hab : a + b ≤ 51) :
    ((file.take 51).drop a).take b = (file.drop a).take b := by
  rw [List.drop_take, List.take_take]
  congr 1
  omega

theorem static51_take2 (file : List Nat) : (file.take 51).take 2 = file.take 2 := by
  rw [List.take_take]
  norm_num

theorem encodeFooter_length_pos (rows : List Row) : 1 ≤ (encodeFooter rows).length := by
  simp [encodeFooter, encodeNat]
  omega

/-- Claim C6 — amended.  The single-URL remote read fetches the footer
with `Range: bytes=<fo>-<fo+fl-1>` (exactly `fl` bytes), but each file
of the batch read fetches it with `Range: bytes=<fo>-<fo+fl>` — the
end byte is `fo+fl`, one past the claimed `fo+fl-1` (harmless only
because the footer ends the file, so the server clamps the range). -/
theorem claim6_footer_ranges (fo fl dp : Nat) (fmt rest : List Nat)
    (hfo : fo < 2 ^ 64) (hfl : fl < 2 ^ 64) (hfmt : fmt.length ≤ 24) :
    (remote_file2metadata (encodeHeader fo fl fmt dp ++ rest)).requests =
        [(0, 50), (fo, fo + fl - 1)] ∧
      (remote_files2metadata_one (encodeHeader fo fl fmt dp ++ rest)).requests =
        [(0, 50), (fo, fo + fl)] := by
  have hdrop0 : (encodeHeader fo fl fmt dp ++ rest).drop 0 =
      encodeHeader fo fl fmt dp ++ rest := List.drop_zero _
  have hmagic : ((httpRange (encodeHeader fo fl fmt dp ++ rest) 0 50).take 2) = [35, 121] := by
    rw [httpRange, hdrop0]
    show ((encodeHeader fo fl fmt dp ++ rest).take 51).take 2 = [35, 121]
    rw [static51_take2, header_take2]
  have hfo' : leToNat (((httpRange (encodeHeader fo fl fmt dp ++ rest) 0 50).drop 2).take 8) =
      fo := by
    rw [httpRange, hdrop0]
    show leToNat ((((encodeHeader fo fl fmt dp ++ rest).take 51).drop 2).take 8) = fo
    rw [static51_slice _ 2 8 (by norm_num), header_slice_fo, leToNat_natToLE _ _ hfo]
  have hfl' : leToNat (((httpRange (encodeHeader fo fl fmt dp ++ rest) 0 50).drop 10).take 8) =
      fl := by
    rw [httpRange, hdrop0]
    show leToNat ((((encodeHeader fo fl fmt dp ++ rest).take 51).drop 10).take 8) = fl
    rw [static51_slice _ 10 8 (by norm_num), header_slice_fl, leToNat_natToLE _ _ hfl]
  constructor
  · rw [remote_file2metadata]
    simp only [hmagic, hfo', hfl']
    simp
  · rw [remote_files2metadata_one]
    simp only [hmagic, hfo', hfl']
    simp

/-- Witness for `claim6_footer_ranges` on a concrete header. -/
theorem claim6_footer_ranges_witness :
    (remote_file2metadata (encodeHeader 200 5 [71] 1 ++ List.replicate 5 9)).requests =
        [(0, 50), (200, 200 + 5 - 1)] ∧
      (remote_files2metadata_one (encodeHeader 200 5 [71] 1 ++ List.replicate 5 9)).requests =
        [(0, 50), (200, 200 + 5)] :=
  claim6_footer_ranges 200 5 1 [71] (List.replicate 5 9) (by norm_num) (by norm_num)
    (by decide)

/-- Claim C6 counterexample: in the batch read the footer request's
end byte is `fo + fl = 205`, not `fo + fl - 1 = 204` as claimed. -/
theorem claim6_footer_ranges_counterexample :
    (remote_files2metadata_one
        (encodeHeader 200 5 [71] 1 ++ List.replicate 5 9)).requests.getD 1 (0, 0) ≠
      (200, 200 + 5 - 1) := by
  decide

/-- Claim C8 — confirmed.  For a child tortilla laid out at absolute
position `base` inside a parent byte stream, the nested read decodes
the child header from the window at `base`, issues the footer request
at absolute position `base + child_footer_offset` (for exactly the
footer's length), and every returned `tortilla:offset` is `base` plus
the child's local offset. -/
theorem claim8_nested_read (base : Nat) (pre post file : List Nat)
    (samples : List Sample) (c : Nat) (fmt : List Nat) (dp : Nat)
    (hpre : pre.length = base)
    (hcreate : createATortilla samples c fmt dp = some file) :
    lazyfile2metadata base (pre ++ file ++ post) =
      ⟨some ⟨(footerRows samples).map (fun r => { r with offset := r.offset + base }),
          pyStrip (ljust24 fmt), "online"⟩,
        [(base, base + 50),
          (base + (200 + sizeSum samples),
            base + (200 + sizeSum samples) + (encodeFooter (footerRows samples)).length - 1)]⟩ := by
  obtain ⟨hs, hbc, hflen, hdp, hfmt, hfile⟩ := createATortilla_eq samples c fmt dp file hcreate
  set bc := 200 + sizeSum samples with hbc_def
  set F := encodeFooter (footerRows samples) with hF_def
  set content := pre ++ file ++ post with hcontent
  have hdropbase : content.drop base = file ++ post := by
    rw [hcontent, List.append_assoc]
    exact drop_append_len _ _ _ hpre
  have hfp : file ++ post = encodeHeader bc F.length fmt dp ++
      (dataRegion c samples ++ (F ++ post)) := by
    rw [hfile]
    simp [List.append_assoc]
  have hstatic : httpRange content base (base + 50) = (file ++ post).take 51 := by
    rw [httpRange, hdropbase]
    congr 1
    omega
  have hmagic : (httpRange content base (base + 50)).take 2 = [35, 121] := by
    rw [hstatic, static51_take2, hfp, header_take2]
  have hfo' : leToNat (((httpRange content base (base + 50)).drop 2).take 8) = bc := by
    rw [hstatic, static51_slice _ 2 8 (by norm_num), hfp, header_slice_fo,
      leToNat_natToLE _ _ hbc]
  have hfl' : leToNat (((httpRange content base (base + 50)).drop 10).take 8) = F.length := by
    rw [hstatic, static51_slice _ 10 8 (by norm_num), hfp, header_slice_fl,
      leToNat_natToLE _ _ hflen]
  have hdf : pyStrip (((httpRange content base (base + 50)).drop 18).take 24) =
      pyStrip (ljust24 fmt) := by
    rw [hstatic, static51_slice _ 18 24 (by norm_num), hfp, header_slice_df _ _ _ _ _ hfmt]
  have hfooter : httpRange content (bc + base) (bc + base + F.length - 1) = F := by
    have hpos := encodeFooter_length_pos (footerRows samples)
    rw [httpRange]
    have harith : bc + base + F.length - 1 + 1 - (bc + base) = F.length := by omega
    rw [harith]
    have hsplit : content.drop (bc + base) = F ++ post := by
      rw [show bc + base = base + bc from Nat.add_comm bc base,
        ← List.drop_drop, hdropbase, hfile, List.append_assoc,
        drop_append_len _ _ bc (by
          rw [List.length_append, length_encodeHeader _ _ _ _ hfmt, dataRegion_length])]
    rw [hsplit]
    exact take_append_len _ _ _ rfl
  have hdec : decodeFooter F = some (footerRows samples) := by
    rw [hF_def]
    exact decodeFooter_encodeFooter _
  rw [lazyfile2metadata]
  simp only [hmagic, hfo', hfl', hdf]
  rw [if_neg (by simp : ¬(([35, 121] : List Nat) ≠ [35, 121]))]
  rw [hfooter, hdec, Nat.add_comm bc base]
  rfl

/-- Witness for `claim8_nested_read`: a one-item child tortilla at
absolute position 3 of a parent stream. -/
theorem claim8_nested_read_witness :
    lazyfile2metadata 3
        ([9, 9, 9] ++ (createATortilla [⟨"a", [7, 7], []⟩] 2 [88] 1).getD [] ++ [4]) =
      ⟨some ⟨(footerRows [⟨"a", [7, 7], []⟩]).map
            (fun r => { r with offset := r.offset + 3 }),
          pyStrip (ljust24 [88]), "online"⟩,
        [(3, 3 + 50),
          (3 + (200 + sizeSum [⟨"a", [7, 7], []⟩]),
            3 + (200 + sizeSum [⟨"a", [7, 7], []⟩]) +
              (encodeFooter (footerRows [⟨"a", [7, 7], []⟩])).length - 1)]⟩ :=
  claim8_nested_read 3 [9, 9, 9] [4] _ [⟨"a", [7, 7], []⟩] 2 [88] 1 (by decide) (by decide)

/-! ### Data-format padding (claim C7)

`bytes.strip()` removes ASCII whitespace only; NUL bytes are kept. -/

theorem dropWhile_of_headI (p : Nat → Bool) (l : List Nat) (h : p l.headI = false) :
    l.dropWhile p = l := by
  cases l with
  | nil => rfl
  | cons a t =>
      simp only [List.headI] at h
      simp [List.dropWhile_cons, h]

theorem headI_reverse (l : List Nat) : l.reverse.headI = l.getLastD 0 := by
  rw [List.getLastD_eq_getLast?, ← List.head?_reverse]
  cases hrev : l.reverse with
  | nil => rfl
  | cons a t => rfl

theorem pyStrip_eq_self (l : List Nat) (hh : isPySpace l.headI = false)
    (hl : isPySpace (l.getLastD 0) = false) : pyStrip l = l := by
  unfold pyStrip
  rw [dropWhile_of_headI _ _ hh,
    dropWhile_of_headI _ _ (by rw [headI_reverse]; exact hl)]
  exact List.reverse_reverse l

theorem headI_append (l r : List Nat) (h : l ≠ []) : (l ++ r).headI = l.headI := by
  cases l with
  | nil => exact absurd rfl h
  | cons a t => rfl

theorem pyStrip_spaces (base : List Nat) (k : Nat) (hne : base ≠ [])
    (hh : isPySpace base.headI = false) (hl : isPySpace (base.getLastD 0) = false) :
    pyStrip (base ++ List.replicate k 32) = base := by
  have hinner : (base ++ List.replicate k 32).dropWhile isPySpace =
      base ++ List.replicate k 32 :=
    dropWhile_of_headI _ _ (by rw [headI_append _ _ hne]; exact hh)
  unfold pyStrip
  rw [hinner, List.reverse_append, List.reverse_replicate, List.dropWhile_append]
  have h1 : (List.replicate k 32).dropWhile isPySpace = [] := by
    simp [List.dropWhile_replicate]
    intro _
    rfl
  rw [h1]
  simp only [List.isEmpty_nil, if_true]
  rw [dropWhile_of_headI _ _ (by rw [headI_reverse]; exact hl)]
  exact List.reverse_reverse base

/-- Claim C7 — amended.  The reader's header decode
(`static_bytes[18:42].strip()`) removes space padding (0x20) exactly,
but `bytes.strip()` does not treat NUL (0x00) as whitespace: a
NUL-padded `data_format` field is returned *with its padding intact*,
so only the space-padding convention is accepted.  (Hypotheses: the
unpadded format is non-empty and neither starts nor ends in Python
whitespace; `base.length + k = 24` sizes the field.) -/
theorem claim7_data_format_strip (base : List Nat) (k fo fl dp : Nat) (rest : List Nat)
    (hlen : base.length + k = 24) (hne : base ≠ [])
    (hh : isPySpace base.headI = false) (hl : isPySpace (base.getLastD 0) = false) :
    headerDataFormat (encodeHeader fo fl base dp ++ rest) = base ∧
      headerDataFormat (encodeHeader fo fl (base ++ List.replicate k 0) dp ++ rest) =
        base ++ List.replicate k 0 := by
  have hfmt1 : base.length ≤ 24 := by omega
  have hfmt2 : (base ++ List.replicate k 0).length ≤ 24 := by simp; omega
  constructor
  · rw [headerDataFormat, static_slice _ 18 24 (by norm_num),
      header_slice_df _ _ _ _ _ hfmt1, ljust24]
    exact pyStrip_spaces base _ hne hh hl
  · rw [headerDataFormat, static_slice _ 18 24 (by norm_num),
      header_slice_df _ _ _ _ _ hfmt2, ljust24]
    have h24 : 24 - (base ++ List.replicate k 0).length = 0 := by simp; omega
    rw [h24, List.replicate_zero, List.append_nil]
    apply pyStrip_eq_self
    · rw [headI_append _ _ hne]; exact hh
    · cases k with
      | zero => simpa using hl
      | succ k =>
          have hlast : (base ++ List.replicate (k + 1) 0).getLastD 0 = 0 := by
            rw [List.replicate_succ', ← List.append_assoc]
            exact List.getLastD_concat _ _ _
          rw [hlast]
          rfl

/-- Witness for `claim7_data_format_strip` with format bytes "GT". -/
theorem claim7_data_format_strip_witness :
    headerDataFormat (encodeHeader 0 0 [71, 84] 1 ++ []) = [71, 84] ∧
      headerDataFormat (encodeHeader 0 0 ([71, 84] ++ List.replicate 22 0) 1 ++ []) =
        [71, 84] ++ List.replicate 22 0 :=
  claim7_data_format_strip [71, 84] 22 0 0 1 [] (by decide) (by decide) (by decide)
    (by decide)

/-- Claim C7 counterexample: a NUL-padded format field is *not*
stripped — the decode returns the field with its 23 trailing NULs, not
the bare format byte. -/
theorem claim7_data_format_strip_counterexample :
    headerDataFormat (encodeHeader 0 0 ([71] ++ List.replicate 23 0) 1 ++ []) ≠ [71] := by
  decide

/-! ### Compiler footer columns (claim C9)

Both `compile_local` and `compile_online` build the new footer with
`new_footer.drop(columns=["geometry", "internal:mode",
"internal:file_format", "internal:subfile", "tortilla:offset"])`;
pandas `drop` raises `KeyError` when any named column is absent. -/

def compileDropCols : List String :=
  ["geometry", "internal:mode", "internal:file_format", "internal:subfile",
    "tortilla:offset"]

/-- `df.drop(columns=cols)` on a table given by its column names. -/
def pdDropColumns (table cols : List String) : Except String (List String) :=
  if cols.all (fun c => table.contains c) then
    Except.ok (table.filter (fun c => !(cols.contains c)))
  else Except.error "KeyError"

/-- The new-footer column computation of `compile_local` (lines
102-109). -/
def compile_local_new_footer (table : List String) : Except String (List String) :=
  pdDropColumns table compileDropCols

/-- The new-footer column computation of `compile_online` (lines
250-255). -/
def compile_online_new_footer (table : List String) : Except String (List String) :=
  pdDropColumns table compileDropCols

/-- Modelled from the spec: `sort_columns_add_geometry` is imported by
`pytortilla/load/main.py` from `load/utils.py` but is absent from the
source tree.  Per the spec's column-ordering rule it reorders columns
`internal:*`, `tortilla:*`, `stac:*`, `rai:*`, then the remaining user
columns, and appends a synthesized `geometry` column exactly when
`stac:centroid` is present. -/
def sort_columns_add_geometry (cols : List String) : List String :=
  (cols.filter (fun c => c.startsWith "internal:")) ++
    (cols.filter (fun c => c.startsWith "tortilla:")) ++
    (cols.filter (fun c => c.startsWith "stac:")) ++
    (cols.filter (fun c => c.startsWith "rai:")) ++
    (cols.filter (fun c => !(c.startsWith "internal:" || c.startsWith "tortilla:" ||
      c.startsWith "stac:" || c.startsWith "rai:"))) ++
    (if cols.contains "stac:centroid" then ["geometry"] else [])

theorem pdDropColumns_no_geometry (table : List String) (h : "geometry" ∉ table) :
    pdDropColumns table compileDropCols = Except.error "KeyError" := by
  rw [pdDropColumns, if_neg]
  intro hall
  simp only [compileDropCols, List.all_cons, Bool.and_eq_true] at hall
  have := hall.1
  simp at this
  exact h this

theorem sort_columns_no_geometry (cols : List String) (hgeom : "geometry" ∉ cols)
    (hcent : "stac:centroid" ∉ cols) :
    "geometry" ∉ sort_columns_add_geometry cols := by
  have hfilter : ∀ p : String → Bool, "geometry" ∉ cols.filter p := by
    intro p hm
    exact hgeom (List.mem_of_mem_filter hm)
  have hcont : cols.contains "stac:centroid" = false := by simpa using hcent
  rw [sort_columns_add_geometry, hcont]
  simp only [if_false, Bool.false_eq_true]
  intro hm
  simp only [List.append_nil, List.mem_append] at hm
  rcases hm with ((((h | h) | h) | h) | h) <;> exact hfilter _ h

/-- Claim C9 — confirmed.  Both compile modes unconditionally drop a
column named `geometry` when building the new footer, and pandas
`drop` raises `KeyError` on a missing column; so a table without a
`geometry` column — in particular, a loaded table whose rows carry no
`stac:centroid`, for which the loader synthesizes no `geometry` —
makes `compile` raise before any output is produced. -/
theorem claim9_compile_drops_geometry (cols : List String)
    (hgeom : "geometry" ∉ cols) (hcent : "stac:centroid" ∉ cols) :
    compile_local_new_footer cols = Except.error "KeyError" ∧
      compile_online_new_footer cols = Except.error "KeyError" ∧
      compile_local_new_footer (sort_columns_add_geometry cols) =
        Except.error "KeyError" ∧
      compile_online_new_footer (sort_columns_add_geometry cols) =
        Except.error "KeyError" := by
  have hsorted := sort_columns_no_geometry cols hgeom hcent
  exact ⟨pdDropColumns_no_geometry cols hgeom, pdDropColumns_no_geometry cols hgeom,
    pdDropColumns_no_geometry _ hsorted, pdDropColumns_no_geometry _ hsorted⟩

/-- Witness for `claim9_compile_drops_geometry` on a centroid-free
loaded schema. -/
theorem claim9_compile_drops_geometry_witness :
    compile_local_new_footer ["tortilla:id", "tortilla:offset", "tortilla:length",
        "internal:file_format", "internal:mode", "internal:subfile"] =
      Except.error "KeyError" ∧
      compile_online_new_footer ["tortilla:id", "tortilla:offset", "tortilla:length",
        "internal:file_format", "internal:mode", "internal:subfile"] =
        Except.error "KeyError" ∧
      compile_local_new_footer (sort_columns_add_geometry ["tortilla:id",
        "tortilla:offset", "tortilla:length", "internal:file_format", "internal:mode",
        "internal:subfile"]) = Except.error "KeyError" ∧
      compile_online_new_footer (sort_columns_add_geometry ["tortilla:id",
        "tortilla:offset", "tortilla:length", "internal:file_format", "internal:mode",
        "internal:subfile"]) = Except.error "KeyError" :=
  claim9_compile_drops_geometry ["tortilla:id", "tortilla:offset", "tortilla:length",
    "internal:file_format", "internal:mode", "internal:subfile"] (by decide) (by decide)

/-! ### STAC time validation (`pytortilla/datamodel/main.py`, claim C10)

Python values of `time_start` / `time_end`: a `datetime` or an `int`.
Comparing either against `None`, or a `datetime` against an `int`,
raises `TypeError`. -/

inductive PyTime where
  | dt (t : Int)
  | num (t : Int)
deriving Repr, DecidableEq

structure STACInput where
  time_start : PyTime
  time_end : Option PyTime
deriving Repr, DecidableEq

structure STACTimes where
  time_start : Int
  time_end : Option Int
deriving Repr, DecidableEq

/-- Python `a > b` on time values: `TypeError` against `None` or
across `datetime`/`int`. -/
def pyGT : PyTime → Option PyTime → Except String Bool
  | _, none => Except.error "TypeError"
  | PyTime.dt a, some (PyTime.dt b) => Except.ok (decide (a > b))
  | PyTime.num a, some (PyTime.num b) => Except.ok (decide (a > b))
  | _, some _ => Except.error "TypeError"

def toTimestamp : PyTime → Int
  | PyTime.dt t => t
  | PyTime.num t => t

/-- `STAC.check_times`: evaluates `time_start > time_end` *before* any
`None` check, then converts datetimes to timestamps. -/
def check_times (s : STACInput) : Except String STACTimes :=
  match pyGT s.time_start s.time_end with
  | Except.error e => Except.error e
  | Except.ok true => Except.error "Invalid times"
  | Except.ok false =>
      Except.ok ⟨toTimestamp s.time_start, s.time_end.map toTimestamp⟩

/-- Claim C10 — confirmed.  Every successfully validated STAC value
has a non-`None` `time_end` with `time_start ≤ time_end`; equivalently
(contrapositive of the first conjunct), constructing with `time_end`
omitted or `None` always raises, because the validator evaluates
`time_start > time_end` before any `None` check. -/
theorem claim10_stac_times (s : STACInput) (m : STACTimes)
    (h : check_times s = Except.ok m) :
    s.time_end.isSome = true ∧ m.time_end.isSome = true ∧
      m.time_start ≤ m.time_end.getD 0 := by
  obtain ⟨ts, te⟩ := s
  match te, ts with
  | none, PyTime.dt a => simp [check_times, pyGT] at h
  | none, PyTime.num a => simp [check_times, pyGT] at h
  | some (PyTime.num b), PyTime.dt a => simp [check_times, pyGT] at h
  | some (PyTime.dt b), PyTime.num a => simp [check_times, pyGT] at h
  | some (PyTime.dt b), PyTime.dt a =>
      by_cases hab : a > b
      · simp [check_times, pyGT, hab] at h
      · simp [check_times, pyGT, hab] at h
        rw [← h]
        refine ⟨rfl, rfl, ?_⟩
        simp [toTimestamp]
        omega
  | some (PyTime.num b), PyTime.num a =>
      by_cases hab : a > b
      · simp [check_times, pyGT, hab] at h
      · simp [check_times, pyGT, hab] at h
        rw [← h]
        refine ⟨rfl, rfl, ?_⟩
        simp [toTimestamp]
        omega

/-- Witness for `claim10_stac_times` at `time_start = 5`,
`time_end = 7`. -/
theorem claim10_stac_times_witness :
    (STACInput.mk (PyTime.num 5) (some (PyTime.num 7))).time_end.isSome = true ∧
      (STACTimes.mk 5 (some 7)).time_end.isSome = true ∧
      (STACTimes.mk 5 (some 7)).time_start ≤ (STACTimes.mk 5 (some 7)).time_end.getD 0 :=
  claim10_stac_times ⟨PyTime.num 5, some (PyTime.num 7)⟩ ⟨5, some 7⟩ rfl

end Tortilla
